import Mathlib

/-!
Shallow embedding of the extraction pipeline of
talos-schematic-id-to-raw-schematic (src/main.go): the byte-offset adapter
(the discarder type and its ReadAt method), the compression sniffer
(decompressingReadCloser), the padding skipper (eatPadding), the member
decoder (parseRawFromExtensions) and the extraction driver
(extractRawSchematic).

Bytes are modelled as natural numbers.  A sequential reader (the Go
io.Reader) is modelled as the list of bytes it has not yet delivered; a
read consumes a prefix of that list.  The cpio archive record iterator and
the yaml decoder are external libraries (u-root cpio, gopkg.in/yaml.v3),
so the driver is modelled at the level of the record sequences those
libraries produce, as described by the specification of the Archive Record
Iterator.
-/

namespace TalosExtract

/-- Errors of the byte-offset adapter: invalidSeek models the
"negative seek on discarder not allowed" error returned when the requested
offset lies before the cursor; shortRead models the error returned by
io.ReadFull (io.EOF or io.ErrUnexpectedEOF) when fewer bytes than
requested remain. -/
inductive ReadAtError where
  | invalidSeek
  | shortRead
  deriving DecidableEq

/-- The discarder of src/main.go (lines 486-489): wraps a sequential
reader and tracks a cursor.  The field rem is the list of bytes the
wrapped reader has not yet delivered; pos is the cursor field of the Go
struct. -/
structure discarder where
  rem : List Nat
  pos : Nat
  deriving DecidableEq

/-- Semantics of the tail of discarder.ReadAt (lines 507-514): io.ReadFull
reads exactly n bytes, after which the cursor advances by n; if fewer than
n bytes remain it consumes everything, reports an error, and the cursor is
left unchanged (the Go code returns before r.pos is updated). -/
def readFull (d : discarder) (n : Nat) : Except ReadAtError (List Nat) × discarder :=
  if n ≤ d.rem.length then
    (Except.ok (d.rem.take n), { rem := d.rem.drop n, pos := d.pos + n })
  else
    (Except.error ReadAtError.shortRead, { rem := [], pos := d.pos })

/-- ReadAt of the discarder (src/main.go lines 493-515).  The offset is an
Int, as in the Go code (int64).  When the offset is ahead of the cursor
the adapter discards bytes via io.Copy over an io.LimitReader; io.Copy
stops without error at end of input, so when fewer than the needed bytes
remain the Go code takes the branch returning the pair of a zero count and
a nil error, with the cursor not advanced. -/
def discarder.ReadAt (d : discarder) (off : Int) (n : Nat) :
    Except ReadAtError (List Nat) × discarder :=
  if off - (d.pos : Int) < 0 then
    (Except.error ReadAtError.invalidSeek, d)
  else if off ≠ (d.pos : Int) then
    if (min ((off - (d.pos : Int)).toNat) d.rem.length : Int) ≠ off - (d.pos : Int) then
      (Except.ok [], { rem := d.rem.drop ((off - (d.pos : Int)).toNat), pos := d.pos })
    else
      readFull { rem := d.rem.drop ((off - (d.pos : Int)).toNat),
                 pos := d.pos + min ((off - (d.pos : Int)).toNat) d.rem.length } n
  else
    readFull d n

/-- Runs a list of (offset, length) requests through discarder.ReadAt,
threading the adapter state and collecting each result. -/
def runRequests (d : discarder) :
    List (Nat × Nat) → List (Except ReadAtError (List Nat)) × discarder
  | [] => ([], d)
  | (off, n) :: rest =>
    let step := d.ReadAt (off : Int) n
    let next := runRequests step.2 rest
    (step.1 :: next.1, next.2)

/-- A request list is valid from a given cursor when offsets are
non-decreasing (each offset at or after the previous request ended) and
every requested range lies inside the stream of the given length. -/
def validSeq : Nat → Nat → List (Nat × Nat) → Bool
  | _, _, [] => true
  | cursor, len, (off, n) :: rest =>
    Nat.ble cursor off && Nat.ble (off + n) len && validSeq (off + n) len rest

/-- Cursor position after a list of requests has been served. -/
def endCursor : Nat → List (Nat × Nat) → Nat
  | c, [] => c
  | _, (off, n) :: rest => endCursor (off + n) rest

/-- The 4-byte xz magic 0xfd '7' 'z' 'X' (src/main.go line 440). -/
def xzMagic : List Nat := [0xfd, 0x37, 0x7a, 0x58]

/-- The 4-byte zstd magic (src/main.go line 448). -/
def zstdMagic : List Nat := [0x28, 0xb5, 0x2f, 0xfd]

/-- Which decompression transform the sniffer selected. -/
inductive Codec where
  | xz
  | zstd
  | plain
  deriving DecidableEq

/-- Failure of the 4-byte peek: bufio.Reader.Peek returns io.EOF or
io.ErrUnexpectedEOF when fewer than 4 bytes remain, and
decompressingReadCloser propagates it. -/
inductive SniffError where
  | truncatedPeek
  deriving DecidableEq

/-- The compression sniffer decompressingReadCloser (src/main.go lines
433-459): peeks 4 bytes without consuming them, selects the transform by
magic, and otherwise hands back the original reader unchanged.  The
returned list is the content of the reader handed on: in every branch the
4 peeked bytes are still unconsumed, so it is the input itself (the xz and
zstd readers also wrap the original reader, magic included). -/
def decompressingReadCloser (s : List Nat) : Except SniffError (Codec × List Nat) :=
  if s.length < 4 then Except.error SniffError.truncatedPeek
  else if s.take 4 = xzMagic then Except.ok (Codec.xz, s)
  else if s.take 4 = zstdMagic then Except.ok (Codec.zstd, s)
  else Except.ok (Codec.plain, s)

/-- eatPadding (src/main.go lines 519-534): reads bytes while they are
zero, unreads the first nonzero byte, and stops silently at end of input.
The result is the remaining stream content. -/
def eatPadding : List Nat → List Nat
  | [] => []
  | b :: rest => if b = 0 then eatPadding rest else b :: rest

/-- Metadata of one configuration layer: the ExtraInfo field of the
extensions.Config layer metadata. -/
structure ExtensionMetadata where
  ExtraInfo : String
  deriving DecidableEq

/-- One entry of the Layers list of an extensions.Config document. -/
structure ExtensionLayer where
  Metadata : ExtensionMetadata
  deriving DecidableEq

/-- The decoded extensions.Config document: its ordered Layers list. -/
structure Config where
  Layers : List ExtensionLayer
  deriving DecidableEq

/-- The target member name (src/main.go line 243). -/
def extensionsYAMLFileName : String := "extensions.yaml"

/-- Errors the extraction driver and member decoder can return.
eofAtSniff is the io.EOF propagated from the 4-byte peek of
decompressingReadCloser when the stream is exhausted; recordReadError is a
non-EOF error from cpio ReadRecord; yamlDecodeError is a yaml decoder
failure; noLayers is the "extensions.yaml has no layers" error of
src/main.go line 474.  The constructor memberNotFound is modelled from the
spec: the spec describes a MemberNotFound error kind reported with the
identifier searched for; the code never constructs such an error, and the
constructor exists only so that statements about it can be made. -/
inductive ExtractError where
  | eofAtSniff
  | recordReadError
  | yamlDecodeError
  | noLayers
  | memberNotFound (ident : String)
  deriving DecidableEq

/-- The member decoder parseRawFromExtensions (src/main.go lines 461-480),
taken from the point where the yaml decoder has produced its outcome (the
yaml library is external; its outcome for the record body is the given
Except value).  On a decoded document it fails when the Layers list is
empty and otherwise returns the ExtraInfo of the entry at index
length - 1, the last entry. -/
def parseRawFromExtensions (content : Except Unit Config) : Except ExtractError String :=
  match content with
  | Except.error _ => Except.error ExtractError.yamlDecodeError
  | Except.ok cfg =>
    if cfg.Layers.length = 0 then Except.error ExtractError.noLayers
    else Except.ok (cfg.Layers.getLastD { Metadata := { ExtraInfo := "" } }).Metadata.ExtraInfo

/-- Decidable equality for Except values, needed to compute with record
contents. -/
instance {ε α : Type} [DecidableEq ε] [DecidableEq α] : DecidableEq (Except ε α) :=
  fun x y =>
    match x, y with
    | Except.error a, Except.error b =>
      if h : a = b then isTrue (by rw [h])
      else isFalse (by intro he; injection he; contradiction)
    | Except.error _, Except.ok _ => isFalse (by intro he; exact Except.noConfusion he)
    | Except.ok _, Except.error _ => isFalse (by intro he; exact Except.noConfusion he)
    | Except.ok a, Except.ok b =>
      if h : a = b then isTrue (by rw [h])
      else isFalse (by intro he; injection he; contradiction)

/-- Modelled from the spec: one archive record as yielded by the external
cpio Archive Record Iterator, carrying its name and the yaml decoding
outcome of its body. -/
structure Rec where
  name : String
  content : Except Unit Config
  deriving DecidableEq

/-- Modelled from the spec: how iteration of one archive layer ends after
its records: cleanly (cpio ReadRecord returns io.EOF, the driver breaks
out of the inner loop) or with a read error (any other ReadRecord error,
which the driver propagates). -/
inductive ArchiveEnd where
  | eof
  | readError
  deriving DecidableEq

/-- Modelled from the spec: one layer of the artifact as seen by the
driver loop: a sniffed (possibly decompressed) stream whose archive yields
the given record sequence and then ends as archiveEnd, with trailing zero
padding already accounted for by eatPadding. -/
structure ArchiveLayer where
  recs : List Rec
  archiveEnd : ArchiveEnd
  deriving DecidableEq

/-- The inner record loop of extractRawSchematic (src/main.go lines
411-425): pull records in order; on a name match hand the body to the
member decoder and return its result; at end of archive return none (the
driver then falls through to the next layer); on a read error propagate
it. -/
def iterateRecords : List Rec → ArchiveEnd → Option (Except ExtractError String)
  | [], ArchiveEnd.eof => none
  | [], ArchiveEnd.readError => some (Except.error ExtractError.recordReadError)
  | r :: rest, e =>
    if r.name = extensionsYAMLFileName then some (parseRawFromExtensions r.content)
    else iterateRecords rest e

/-- The outer loop of extractRawSchematic (src/main.go lines 396-430),
also recording the closeFunc list: each successful decompressingReadCloser
call appends one closeFunc (identified here by the layer index); when the
layer list is exhausted the next 4-byte peek fails and the io.EOF is
returned.  The second component is the closeFuncs slice in acquisition
order at the moment the function returns. -/
def extractLoop :
    List ArchiveLayer → Nat → List Nat → Except ExtractError String × List Nat
  | [], _, acc => (Except.error ExtractError.eofAtSniff, acc)
  | L :: rest, idx, acc =>
    match iterateRecords L.recs L.archiveEnd with
    | some res => (res, acc ++ [idx])
    | none => extractLoop rest (idx + 1) (acc ++ [idx])

/-- extractRawSchematic (src/main.go lines 387-431): result of the driver
on the given layer decomposition of the artifact. -/
def extractRawSchematic (layers : List ArchiveLayer) : Except ExtractError String :=
  (extractLoop layers 0 []).1

/-- The closeFuncs slice accumulated by extractRawSchematic, in
acquisition order. -/
def acquiredClosers (layers : List ArchiveLayer) : List Nat :=
  (extractLoop layers 0 []).2

/-- The deferred release loop of extractRawSchematic (src/main.go lines
390-394): a for-range over the closeFuncs slice, calling each in slice
order; the result is the order in which the closers actually run. -/
def runCloseFuncs (fs : List Nat) : List Nat :=
  List.foldl (fun out c => out ++ [c]) [] fs

/-- Order in which the closers of a run of extractRawSchematic are
executed when the deferred loop runs at function exit. -/
def executedClosers (layers : List ArchiveLayer) : List Nat :=
  runCloseFuncs (acquiredClosers layers)

/-- Outcome of one iteration of the driver loop seen from the current
stream: the pipeline ends with a result, or the loop re-enters on the
remaining stream. -/
inductive StepOutcome where
  | done (r : Except ExtractError String)
  | next (s : List Nat)

/-- The driver loop as iteration of a one-iteration step function, with
explicit fuel: none means the fuel ran out before the pipeline ended. -/
def runDriverFuel (step : List Nat → StepOutcome) :
    Nat → List Nat → Option (Except ExtractError String)
  | 0, _ => none
  | fuel + 1, s =>
    match step s with
    | StepOutcome.done r => some r
    | StepOutcome.next s' => runDriverFuel step fuel s'

/-- A concrete step function used to exhibit the termination theorem: it
ends the pipeline on an empty stream and otherwise consumes one byte. -/
def stepTail : List Nat → StepOutcome
  | [] => StepOutcome.done (Except.error ExtractError.eofAtSniff)
  | _ :: rest => StepOutcome.next rest

/-! Theorems. -/

/-- Helper: getLastD of a nonempty list is its getLast. -/
theorem getLastD_of_ne_nil {α : Type} (l : List α) (d : α) (h : l ≠ []) :
    l.getLastD d = l.getLast h := by
  rw [List.getLastD_eq_getLast?, List.getLast?_eq_getLast_of_ne_nil h]
  rfl

/-- Claim C1: for every successfully decoded configuration document whose
Layers list is non-empty, parseRawFromExtensions returns the ExtraInfo
text of the last entry of the Layers list. -/
theorem parseRawFromExtensions_last (cfg : Config) (h : cfg.Layers ≠ []) :
    parseRawFromExtensions (Except.ok cfg) =
      Except.ok (cfg.Layers.getLast h).Metadata.ExtraInfo := by
  simp only [parseRawFromExtensions]
  rw [if_neg (by simpa using h), getLastD_of_ne_nil _ _ h]

/-- Witness for C1 at a two-layer document: the second text wins. -/
theorem parseRawFromExtensions_last_witness :
    ({ Layers := [{ Metadata := { ExtraInfo := "a" } },
        { Metadata := { ExtraInfo := "hello" } }] } : Config).Layers ≠ [] ∧
    parseRawFromExtensions (Except.ok { Layers := [{ Metadata := { ExtraInfo := "a" } },
        { Metadata := { ExtraInfo := "hello" } }] }) = Except.ok "hello" := by
  refine ⟨by decide, ?_⟩
  rw [parseRawFromExtensions_last _ (by decide)]
  rfl

/-- Claim C8: a request whose offset lies strictly before the cursor
fails with the invalid-seek error, returns no bytes and leaves the
adapter state (cursor and stream) unchanged. -/
theorem ReadAt_invalidSeek (d : discarder) (off : Int) (n : Nat)
    (h : off < (d.pos : Int)) :
    d.ReadAt off n = (Except.error ReadAtError.invalidSeek, d) := by
  unfold discarder.ReadAt
  rw [if_pos (by omega)]

/-- Witness for C8 at a concrete backward request. -/
theorem ReadAt_invalidSeek_witness :
    (2 : Int) < (({ rem := [1, 2], pos := 3 } : discarder).pos : Int) ∧
    discarder.ReadAt { rem := [1, 2], pos := 3 } 2 1 =
      (Except.error ReadAtError.invalidSeek, { rem := [1, 2], pos := 3 }) :=
  ⟨by decide, ReadAt_invalidSeek { rem := [1, 2], pos := 3 } 2 1 (by decide)⟩

/-- Counterexample to C7 as stated: on an exhausted stream a request at
offset 5 for 1 byte ends the discard phase early, and the code returns
the pair of a zero count and a nil error, a non-error outcome, not a
short-read error. -/
theorem ReadAt_discardShort_counterexample :
    discarder.ReadAt { rem := [], pos := 0 } 5 1 =
      (Except.ok [], { rem := [], pos := 0 }) ∧
    (discarder.ReadAt { rem := [], pos := 0 } 5 1).1 ≠
      Except.error ReadAtError.shortRead := by
  decide

/-- Claim C7 (amended): when the offset is valid and reachable (the bytes
to discard do not exceed the remaining stream) but fewer than n bytes
remain at the offset, ReadAt fails with the short-read error; the
remaining stream is consumed and the cursor stops at the offset. -/
theorem ReadAt_shortRead (rem : List Nat) (pos off n : Nat) (h1 : pos ≤ off)
    (h2 : off - pos ≤ rem.length) (h3 : rem.length + pos < off + n) :
    discarder.ReadAt { rem := rem, pos := pos } (off : Int) n =
      (Except.error ReadAtError.shortRead, { rem := [], pos := off }) := by
  unfold discarder.ReadAt
  dsimp only
  rw [if_neg (by omega)]
  by_cases hoc : off = pos
  · subst hoc
    rw [if_neg (by omega)]
    unfold readFull
    dsimp only
    rw [if_neg (by omega)]
  · have hco : pos < off := lt_of_le_of_ne h1 (fun he => hoc he.symm)
    have ht : ((off : Int) - (pos : Int)).toNat = off - pos := by omega
    have hmin : min (off - pos) rem.length = off - pos := by omega
    rw [if_pos (by omega)]
    rw [ht, hmin]
    rw [if_neg (by omega)]
    unfold readFull
    dsimp only
    have hdl : (rem.drop (off - pos)).length = rem.length - (off - pos) := by simp
    rw [if_neg (by omega)]
    have hp : pos + (off - pos) = off := by omega
    rw [hp]

/-- Witness for C7 (amended): one byte remains, a two-byte read at offset
1 discards it and then fails short. -/
theorem ReadAt_shortRead_witness :
    ((0 : Nat) ≤ 1 ∧ 1 - 0 ≤ ([7] : List Nat).length ∧
      ([7] : List Nat).length + 0 < 1 + 2) ∧
    discarder.ReadAt { rem := [7], pos := 0 } ((1 : Nat) : Int) 2 =
      (Except.error ReadAtError.shortRead, { rem := [], pos := 1 }) :=
  ⟨by decide, ReadAt_shortRead [7] 0 1 2 (by decide) (by decide) (by decide)⟩

/-- Claim C6: on a stream of at least 4 bytes the sniffer never fails,
hands on the stream with the 4 inspected bytes unconsumed, selects xz
exactly on the xz magic, zstd exactly on the zstd magic, and passes
through otherwise. -/
theorem sniffer_selects (s : List Nat) (h : 4 ≤ s.length) :
    ∃ c, decompressingReadCloser s = Except.ok (c, s) ∧
      (c = Codec.xz ↔ s.take 4 = xzMagic) ∧
      (c = Codec.zstd ↔ s.take 4 = zstdMagic) ∧
      (c = Codec.plain ↔ (s.take 4 ≠ xzMagic ∧ s.take 4 ≠ zstdMagic)) := by
  have hlen : ¬ s.length < 4 := by omega
  have hmag : xzMagic ≠ zstdMagic := by decide
  by_cases h1 : s.take 4 = xzMagic
  · refine ⟨Codec.xz, ?_, ?_, ?_, ?_⟩
    · simp [decompressingReadCloser, hlen, h1]
    · simp [h1]
    · simp only [h1]
      constructor
      · intro hc; exact absurd hc (by decide)
      · intro hz; exact absurd hz hmag
    · constructor
      · intro hc; exact absurd hc (by decide)
      · intro hz; exact absurd h1 hz.1
  · by_cases h2 : s.take 4 = zstdMagic
    · refine ⟨Codec.zstd, ?_, ?_, ?_, ?_⟩
      · simp [decompressingReadCloser, hlen, h1, h2, Ne.symm hmag]
      · simp only [h2]
        constructor
        · intro hc; exact absurd hc (by decide)
        · intro hz; exact absurd hz.symm hmag
      · simp [h2]
      · constructor
        · intro hc; exact absurd hc (by decide)
        · intro hz; exact absurd h2 hz.2
    · refine ⟨Codec.plain, ?_, ?_, ?_, ?_⟩
      · simp [decompressingReadCloser, hlen, h1, h2]
      · constructor
        · intro hc; exact absurd hc (by decide)
        · intro hx; exact absurd hx h1
      · constructor
        · intro hc; exact absurd hc (by decide)
        · intro hz; exact absurd hz h2
      · simp [h1, h2]

/-- Witness for C6 at a 5-byte stream with no recognized magic. -/
theorem sniffer_selects_witness :
    4 ≤ ([1, 2, 3, 4, 5] : List Nat).length ∧
    ∃ c, decompressingReadCloser [1, 2, 3, 4, 5] = Except.ok (c, [1, 2, 3, 4, 5]) ∧
      (c = Codec.xz ↔ ([1, 2, 3, 4, 5] : List Nat).take 4 = xzMagic) ∧
      (c = Codec.zstd ↔ ([1, 2, 3, 4, 5] : List Nat).take 4 = zstdMagic) ∧
      (c = Codec.plain ↔ (([1, 2, 3, 4, 5] : List Nat).take 4 ≠ xzMagic ∧
        ([1, 2, 3, 4, 5] : List Nat).take 4 ≠ zstdMagic)) :=
  ⟨by decide, sniffer_selects [1, 2, 3, 4, 5] (by decide)⟩

/-- Helper for C2: a single valid forward read from the invariant state
(the adapter holds the suffix of the stream from its cursor on) returns
exactly the requested slice and advances cursor and stream to the end of
the range. -/
theorem readAt_drop (contents : List Nat) (c off n : Nat) (h1 : c ≤ off)
    (h2 : off + n ≤ contents.length) :
    discarder.ReadAt { rem := contents.drop c, pos := c } ((off : Nat) : Int) n =
      (Except.ok ((contents.drop off).take n),
        { rem := contents.drop (off + n), pos := off + n }) := by
  have hlen : (contents.drop c).length = contents.length - c := by simp
  unfold discarder.ReadAt
  dsimp only
  rw [if_neg (by omega)]
  by_cases hoc : off = c
  · subst hoc
    rw [if_neg (by omega)]
    unfold readFull
    dsimp only
    rw [if_pos (by omega)]
    rw [List.drop_drop]
  · have hco : c < off := lt_of_le_of_ne h1 (fun he => hoc he.symm)
    have ht : ((off : Int) - (c : Int)).toNat = off - c := by omega
    have hmin : min (off - c) (contents.drop c).length = off - c := by omega
    rw [if_pos (by omega)]
    rw [ht, hmin]
    rw [if_neg (by omega)]
    unfold readFull
    dsimp only
    rw [List.drop_drop]
    have hcc : c + (off - c) = off := by omega
    rw [hcc]
    have hdl : (contents.drop off).length = contents.length - off := by simp
    rw [if_pos (by omega)]
    rw [List.drop_drop]

/-- Helper for C2: runs a valid request list from the invariant state,
computing every result and the final state. -/
theorem runRequests_drop (contents : List Nat) (reqs : List (Nat × Nat)) :
    ∀ c, validSeq c contents.length reqs = true →
      runRequests { rem := contents.drop c, pos := c } reqs =
        (reqs.map (fun p => Except.ok ((contents.drop p.1).take p.2)),
          { rem := contents.drop (endCursor c reqs), pos := endCursor c reqs }) := by
  induction reqs with
  | nil => intro c _; simp [runRequests, endCursor]
  | cons p rest ih =>
    intro c hv
    obtain ⟨off, n⟩ := p
    simp only [validSeq, Bool.and_eq_true, Nat.ble_eq] at hv
    obtain ⟨⟨hv1, hv2⟩, hv3⟩ := hv
    simp only [runRequests, readAt_drop contents c off n hv1 hv2, List.map_cons, endCursor]
    rw [ih (off + n) hv3]

/-- Claim C2: for every sequence of requests with non-decreasing offsets
whose ranges lie within the stream, every request served by the
byte-offset adapter returns exactly the slice of the underlying stream at
its range, and at the end the cursor has advanced to the end of the last
range with the stream consumed up to it. -/
theorem runRequests_valid (contents : List Nat) (reqs : List (Nat × Nat))
    (h : validSeq 0 contents.length reqs = true) :
    runRequests { rem := contents, pos := 0 } reqs =
      (reqs.map (fun p => Except.ok ((contents.drop p.1).take p.2)),
        { rem := contents.drop (endCursor 0 reqs), pos := endCursor 0 reqs }) := by
  have h0 := runRequests_drop contents reqs 0 h
  simpa using h0

/-- Witness for C2: two valid requests against a five-byte stream. -/
theorem runRequests_valid_witness :
    validSeq 0 ([10, 11, 12, 13, 14] : List Nat).length [(1, 2), (4, 1)] = true ∧
    runRequests { rem := [10, 11, 12, 13, 14], pos := 0 } [(1, 2), (4, 1)] =
      ([(1, 2), (4, 1)].map (fun p =>
          Except.ok ((([10, 11, 12, 13, 14] : List Nat).drop p.1).take p.2)),
        { rem := ([10, 11, 12, 13, 14] : List Nat).drop (endCursor 0 [(1, 2), (4, 1)]),
          pos := endCursor 0 [(1, 2), (4, 1)] }) :=
  ⟨by decide, runRequests_valid [10, 11, 12, 13, 14] [(1, 2), (4, 1)] (by decide)⟩

/-- Helper: record iteration over a layer with no matching record and a
clean end of archive signals end of archive to the driver. -/
theorem iterateRecords_noMatch (recs : List Rec)
    (h : ∀ x ∈ recs, x.name ≠ extensionsYAMLFileName) :
    iterateRecords recs ArchiveEnd.eof = none := by
  induction recs with
  | nil => rfl
  | cons r rest ih =>
    simp only [iterateRecords]
    rw [if_neg (h r (by simp))]
    exact ih fun x hx => h x (by simp [hx])

/-- Helper: record iteration stops at the first matching record and hands
its content to the member decoder, whatever follows. -/
theorem iterateRecords_match (pre post : List Rec) (r : Rec) (e : ArchiveEnd)
    (hpre : ∀ x ∈ pre, x.name ≠ extensionsYAMLFileName)
    (hr : r.name = extensionsYAMLFileName) :
    iterateRecords (pre ++ r :: post) e = some (parseRawFromExtensions r.content) := by
  induction pre with
  | nil => simp [iterateRecords, hr]
  | cons a rest ih =>
    simp only [List.cons_append, iterateRecords]
    rw [if_neg (hpre a (by simp))]
    exact ih fun x hx => hpre x (by simp [hx])

/-- Helper: the driver loop over layers that contain no matching record
and all end cleanly runs out of layers and returns the end-of-stream
error of the next 4-byte peek, for any layer index and closer list. -/
theorem extractLoop_noMatch (layers : List ArchiveLayer)
    (h : ∀ L ∈ layers, L.archiveEnd = ArchiveEnd.eof ∧
        ∀ x ∈ L.recs, x.name ≠ extensionsYAMLFileName) :
    ∀ idx acc, (extractLoop layers idx acc).1 = Except.error ExtractError.eofAtSniff := by
  induction layers with
  | nil => intro idx acc; rfl
  | cons L rest ih =>
    intro idx acc
    have hL := h L (by simp)
    simp only [extractLoop, hL.1, iterateRecords_noMatch L.recs hL.2]
    exact ih (fun x hx => h x (by simp [hx])) (idx + 1) (acc ++ [idx])

/-- Helper: the driver loop returns the decode result of the first
matching record, whatever records, end kind and layers follow it. -/
theorem extractLoop_firstMatch (pres : List ArchiveLayer) (pre post : List Rec)
    (r : Rec) (e : ArchiveEnd) (rest : List ArchiveLayer)
    (hpres : ∀ L ∈ pres, L.archiveEnd = ArchiveEnd.eof ∧
        ∀ x ∈ L.recs, x.name ≠ extensionsYAMLFileName)
    (hpre : ∀ x ∈ pre, x.name ≠ extensionsYAMLFileName)
    (hr : r.name = extensionsYAMLFileName) :
    ∀ idx acc,
      (extractLoop (pres ++ { recs := pre ++ r :: post, archiveEnd := e } :: rest)
        idx acc).1 = parseRawFromExtensions r.content := by
  induction pres with
  | nil =>
    intro idx acc
    simp only [List.nil_append, extractLoop,
      iterateRecords_match pre post r e hpre hr]
  | cons L ps ih =>
    intro idx acc
    have hL := hpres L (by simp)
    simp only [List.cons_append, extractLoop, hL.1,
      iterateRecords_noMatch L.recs hL.2]
    exact ih (fun x hx => hpres x (by simp [hx])) (idx + 1) (acc ++ [idx])

/-- A record not named extensions.yaml, used in concrete artifacts. -/
def recUsr : Rec := { name := "usr", content := Except.error () }

/-- A one-layer artifact with a single unrelated record. -/
def layersUsr : List ArchiveLayer := [{ recs := [recUsr], archiveEnd := ArchiveEnd.eof }]

/-- Counterexample to C3 as stated: an artifact of one archive layer with
a single record not named extensions.yaml ends with the propagated
end-of-stream error of the 4-byte peek, which is not a member-not-found
error reporting the identifier searched for. -/
theorem extract_noMatch_counterexample :
    extractRawSchematic layersUsr = Except.error ExtractError.eofAtSniff ∧
    ExtractError.eofAtSniff ≠ ExtractError.memberNotFound extensionsYAMLFileName := by
  decide

/-- Claim C3 (amended): for every artifact whose layers contain no record
named extensions.yaml and all end cleanly, the driver terminates with the
end-of-stream error propagated from the 4-byte peek of the sniffer, a
failure that does not name the identifier searched for. -/
theorem extract_noMatch_eof (layers : List ArchiveLayer)
    (h : ∀ L ∈ layers, L.archiveEnd = ArchiveEnd.eof ∧
        ∀ x ∈ L.recs, x.name ≠ extensionsYAMLFileName) :
    extractRawSchematic layers = Except.error ExtractError.eofAtSniff :=
  extractLoop_noMatch layers h 0 []

/-- A record not named extensions.yaml, used in the C3 witness. -/
def recFoo : Rec := { name := "foo", content := Except.error () }

/-- A one-layer artifact for the C3 witness. -/
def layersFoo : List ArchiveLayer := [{ recs := [recFoo], archiveEnd := ArchiveEnd.eof }]

/-- Witness for C3 (amended) at a one-layer artifact with one unrelated
record. -/
theorem extract_noMatch_eof_witness :
    (∀ L ∈ layersFoo, L.archiveEnd = ArchiveEnd.eof ∧
        ∀ x ∈ L.recs, x.name ≠ extensionsYAMLFileName) ∧
    extractRawSchematic layersFoo = Except.error ExtractError.eofAtSniff :=
  ⟨by decide, extract_noMatch_eof _ (by decide)⟩

/-- Claim C5: the driver decodes exactly the first record named
extensions.yaml encountered in iteration order and terminates with its
result; the records after it, the end kind of its layer and all later
layers do not influence the result. -/
theorem extract_firstMatch (pres : List ArchiveLayer) (pre post : List Rec)
    (r : Rec) (e : ArchiveEnd) (rest : List ArchiveLayer)
    (hpres : ∀ L ∈ pres, L.archiveEnd = ArchiveEnd.eof ∧
        ∀ x ∈ L.recs, x.name ≠ extensionsYAMLFileName)
    (hpre : ∀ x ∈ pre, x.name ≠ extensionsYAMLFileName)
    (hr : r.name = extensionsYAMLFileName) :
    extractRawSchematic (pres ++ { recs := pre ++ r :: post, archiveEnd := e } :: rest) =
      parseRawFromExtensions r.content :=
  extractLoop_firstMatch pres pre post r e rest hpres hpre hr 0 []

/-- A one-layer document with the given extra-info text. -/
def oneLayerDoc (t : String) : Config := { Layers := [{ Metadata := { ExtraInfo := t } }] }

/-- A matching record carrying a one-layer document with the given text. -/
def matchRec (t : String) : Rec :=
  { name := extensionsYAMLFileName, content := Except.ok (oneLayerDoc t) }

/-- An empty archive layer ending cleanly. -/
def emptyLayer : ArchiveLayer := { recs := [], archiveEnd := ArchiveEnd.eof }

/-- A record not named extensions.yaml, placed before the first match. -/
def recA : Rec := { name := "a", content := Except.error () }

/-- A later layer holding another matching record, never reached. -/
def layerZ : ArchiveLayer := { recs := [matchRec "Z"], archiveEnd := ArchiveEnd.eof }

/-- Witness for C5: the first match (text X) wins over a second record of
the same name in the same layer and over a whole later layer, and even a
read error scheduled after the match is never reached. -/
theorem extract_firstMatch_witness :
    ((∀ L ∈ [emptyLayer], L.archiveEnd = ArchiveEnd.eof ∧
        ∀ x ∈ L.recs, x.name ≠ extensionsYAMLFileName) ∧
      (∀ x ∈ [recA], x.name ≠ extensionsYAMLFileName) ∧
      (matchRec "X").name = extensionsYAMLFileName) ∧
    extractRawSchematic
      ([emptyLayer] ++
        { recs := [recA] ++ matchRec "X" :: [matchRec "Y"],
          archiveEnd := ArchiveEnd.readError } :: [layerZ]) = Except.ok "X" := by
  refine ⟨⟨by decide, by decide, rfl⟩, ?_⟩
  rw [extract_firstMatch [emptyLayer] [recA] [matchRec "Y"] (matchRec "X")
    ArchiveEnd.readError [layerZ] (by decide) (by decide) rfl]
  rfl

/-- Claim C4: when the first matching record decodes to a configuration
document with an empty Layers list, extraction fails with the dedicated
empty-layers error. -/
theorem extract_emptyLayers (pres : List ArchiveLayer) (pre post : List Rec)
    (r : Rec) (e : ArchiveEnd) (rest : List ArchiveLayer) (cfg : Config)
    (hpres : ∀ L ∈ pres, L.archiveEnd = ArchiveEnd.eof ∧
        ∀ x ∈ L.recs, x.name ≠ extensionsYAMLFileName)
    (hpre : ∀ x ∈ pre, x.name ≠ extensionsYAMLFileName)
    (hr : r.name = extensionsYAMLFileName)
    (hc : r.content = Except.ok cfg) (hempty : cfg.Layers = []) :
    extractRawSchematic (pres ++ { recs := pre ++ r :: post, archiveEnd := e } :: rest) =
      Except.error ExtractError.noLayers := by
  have h0 := extractLoop_firstMatch pres pre post r e rest hpres hpre hr 0 []
  rw [extractRawSchematic, h0, hc]
  simp [parseRawFromExtensions, hempty]

/-- A matching record whose document has an empty Layers list. -/
def emptyDocRec : Rec :=
  { name := extensionsYAMLFileName, content := Except.ok { Layers := [] } }

/-- Witness for C4: a single-layer artifact whose matching record holds a
document with an empty Layers list. -/
theorem extract_emptyLayers_witness :
    ((∀ L ∈ ([] : List ArchiveLayer), L.archiveEnd = ArchiveEnd.eof ∧
        ∀ x ∈ L.recs, x.name ≠ extensionsYAMLFileName) ∧
      (∀ x ∈ ([] : List Rec), x.name ≠ extensionsYAMLFileName) ∧
      emptyDocRec.name = extensionsYAMLFileName ∧
      emptyDocRec.content = Except.ok { Layers := [] } ∧
      ({ Layers := [] } : Config).Layers = []) ∧
    extractRawSchematic
      ([] ++ { recs := [] ++ emptyDocRec :: [], archiveEnd := ArchiveEnd.eof } :: []) =
      Except.error ExtractError.noLayers :=
  ⟨⟨by decide, by decide, rfl, rfl, rfl⟩,
    extract_emptyLayers [] [] [] emptyDocRec ArchiveEnd.eof [] { Layers := [] }
      (by decide) (by decide) rfl rfl rfl⟩

/-- Helper for C9: any fuel bound above the stream length suffices for
the loop to end, when every continuing iteration strictly shrinks the
stream. -/
theorem runDriverFuel_some (step : List Nat → StepOutcome)
    (hstep : ∀ s s', step s = StepOutcome.next s' → s'.length < s.length) :
    ∀ fuel s, s.length < fuel → (runDriverFuel step fuel s).isSome = true := by
  intro fuel
  induction fuel with
  | zero => intro s hs; exact absurd hs (Nat.not_lt_zero _)
  | succ f ih =>
    intro s hs
    rw [runDriverFuel]
    cases hstep2 : step s with
    | done r => simp
    | next s2 =>
      have hlt := hstep s s2 hstep2
      simp only
      exact ih s2 (by omega)

/-- Claim C9: when each iteration of the driver loop either ends the
pipeline or strictly consumes at least one byte of the remaining stream,
the loop terminates within stream-length-plus-one iterations on every
finite stream. -/
theorem driverLoop_terminates (step : List Nat → StepOutcome)
    (hstep : ∀ s s', step s = StepOutcome.next s' → s'.length < s.length)
    (s : List Nat) :
    (runDriverFuel step (s.length + 1) s).isSome = true :=
  runDriverFuel_some step hstep (s.length + 1) s (by omega)

/-- Witness for C9 with the concrete one-byte-consuming step function on
a two-byte stream. -/
theorem driverLoop_terminates_witness :
    (∀ s s', stepTail s = StepOutcome.next s' → s'.length < s.length) ∧
    (runDriverFuel stepTail (([0, 0] : List Nat).length + 1) [0, 0]).isSome = true := by
  have hstep : ∀ s s', stepTail s = StepOutcome.next s' → s'.length < s.length := by
    intro s s' hs
    cases s with
    | nil => exact absurd hs (by simp [stepTail])
    | cons a rest =>
      simp only [stepTail, StepOutcome.next.injEq] at hs
      subst hs
      simp
  exact ⟨hstep, driverLoop_terminates stepTail hstep [0, 0]⟩

/-- Helper for C10: the release loop over the closeFuncs slice executes
exactly the accumulated closers after any already-executed prefix. -/
theorem foldl_snoc_eq_append (fs acc : List Nat) :
    List.foldl (fun out c => out ++ [c]) acc fs = acc ++ fs := by
  induction fs generalizing acc with
  | nil => simp
  | cons f rest ih => simp [List.foldl, ih]

/-- Two archive layers with no matching record, exercising two closer
acquisitions. -/
def layersTwo : List ArchiveLayer :=
  [{ recs := [], archiveEnd := ArchiveEnd.eof },
    { recs := [recUsr], archiveEnd := ArchiveEnd.eof }]

/-- Counterexample to C10 as stated: on a two-layer artifact the two
closers are acquired as layer 0 then layer 1, and the deferred loop
executes them in that same order, not in the reverse order the claim
states. -/
theorem closers_order_counterexample :
    acquiredClosers layersTwo = [0, 1] ∧
    executedClosers layersTwo = [0, 1] ∧
    executedClosers layersTwo ≠ (acquiredClosers layersTwo).reverse := by
  decide

/-- Claim C10 (amended): whenever the pipeline terminates, every closer
acquired during the run is executed, in acquisition order (first acquired
runs first). -/
theorem closers_executed_in_order (layers : List ArchiveLayer) :
    executedClosers layers = acquiredClosers layers := by
  unfold executedClosers runCloseFuncs
  rw [foldl_snoc_eq_append]
  simp

end TalosExtract
